import Mathlib

/-!
Verification of the citation-collection pipeline (`data_collector.py`) and the
graph-construction step (`graph_builder.py`) of the info-698-hybrid-rag repository.

Python JSON/dict values are embedded as the inductive type `JVal`; Python
exceptions are embedded as `Except String`; the remote bibliographic API is
embedded as an oracle assigning an outcome to each issued HTTP request; wall
clock instants are embedded as integer ticks (`time.time()` results are used
only subtractively by the code under verification), and the configured `delay`
(a Python float that is only ever multiplied by powers of two and passed to
`time.sleep`) as a rational number.  JSON numbers are modelled as integers: no
claim under consideration involves fractional JSON values.
-/

namespace Info698

/-- A Python value as produced by `response.json()` or built by the collector:
`None`, booleans, numbers, strings, lists and dicts.  Dicts are association
lists in insertion order, as Python dicts preserve insertion order. -/
inductive JVal where
  | null
  | bool (b : Bool)
  | num (n : Int)
  | str (s : String)
  | list (xs : List JVal)
  | obj (fs : List (JVal × JVal))

mutual

/-- Structural equality of embedded values, playing the role of Python `==`
at dict-key positions (where only hashable, scalar values ever occur). -/
def beqJ : JVal → JVal → Bool
  | .null, .null => true
  | .bool a, .bool b => decide (a = b)
  | .num a, .num b => decide (a = b)
  | .str a, .str b => decide (a = b)
  | .list xs, .list ys => beqListJ xs ys
  | .obj fs, .obj gs => beqPairsJ fs gs
  | _, _ => false

/-- Elementwise `beqJ` on lists. -/
def beqListJ : List JVal → List JVal → Bool
  | [], [] => true
  | x :: xs, y :: ys => beqJ x y && beqListJ xs ys
  | _, _ => false

/-- Elementwise `beqJ` on key/value pair lists. -/
def beqPairsJ : List (JVal × JVal) → List (JVal × JVal) → Bool
  | [], [] => true
  | (k, v) :: xs, (l, w) :: ys => beqJ k l && beqJ v w && beqPairsJ xs ys
  | _, _ => false

end

/-- Python dict lookup (`d[k]` / `d.get(k)` hit testing): first binding whose
key compares equal to the probe.  A Python dict holds at most one binding per
key, so first-match agrees with dict semantics. -/
def lookupJ : List (JVal × JVal) → JVal → Option JVal
  | [], _ => none
  | (k, v) :: rest, key => if beqJ k key then some v else lookupJ rest key

/-- Python dict assignment `d[key] = v`: replace the value in place if the key
is present (the original key object and its position are kept), else append. -/
def insertJ : List (JVal × JVal) → JVal → JVal → List (JVal × JVal)
  | [], key, v => [(key, v)]
  | (k, w) :: rest, key, v =>
      if beqJ k key then (k, v) :: rest else (k, w) :: insertJ rest key v

/-- Python truthiness of an embedded value. -/
def JVal.truthy : JVal → Bool
  | .null => false
  | .bool b => b
  | .num n => decide (n ≠ 0)
  | .str s => decide (s ≠ "")
  | .list xs => !xs.isEmpty
  | .obj fs => !fs.isEmpty

/-- Whether a value may be used as a Python dict key (lists and dicts are
unhashable; using one as a key raises `TypeError`). -/
def JVal.hashable : JVal → Bool
  | .list _ => false
  | .obj _ => false
  | _ => true

/-- Python `isinstance(v, dict)`. -/
def JVal.isObj : JVal → Bool
  | .obj _ => true
  | _ => false

/-- Python `isinstance(v, list)`. -/
def JVal.isList : JVal → Bool
  | .list _ => true
  | _ => false

/-- Python `x or y`. -/
def pyOr (x y : JVal) : JVal := if x.truthy then x else y

/-- Python iteration (`for v in x`, `list.extend(x)` and friends): lists yield
their elements, strings their characters (as one-character strings), dicts
their keys; other values raise `TypeError`. -/
def JVal.elems : JVal → Except String (List JVal)
  | .list xs => .ok xs
  | .str s => .ok (s.data.map fun c => .str (String.mk [c]))
  | .obj fs => .ok (fs.map Prod.fst)
  | _ => .error "TypeError: not iterable"

/-- Python subscript `x[0]`: first element of a list or string (raising
`IndexError` when empty), key lookup for a dict (key `0`), `TypeError`
otherwise. -/
def JVal.index0 : JVal → Except String JVal
  | .list (x :: _) => .ok x
  | .list [] => .error "IndexError"
  | .str s =>
      match s.data with
      | c :: _ => .ok (.str (String.mk [c]))
      | [] => .error "IndexError"
  | .obj fs =>
      match lookupJ fs (.num 0) with
      | some v => .ok v
      | none => .error "KeyError"
  | _ => .error "TypeError: not subscriptable"

/-- Python `v.get(key)` with no default: `None` when the key is absent,
`AttributeError` when the receiver is not a dict. -/
def objGet (v : JVal) (key : String) : Except String JVal :=
  match v with
  | .obj fs => .ok ((lookupJ fs (.str key)).getD .null)
  | _ => .error "AttributeError: get"

/-- Python `v.get(key, default)`: the stored value when the key is present
(even when that value is `None`), the default when absent, `AttributeError`
when the receiver is not a dict. -/
def objGetD (v : JVal) (key : String) (dflt : JVal) : Except String JVal :=
  match v with
  | .obj fs => .ok ((lookupJ fs (.str key)).getD dflt)
  | _ => .error "AttributeError: get"

/-! ### The retrying HTTP client (`OpenAlexAPI._make_request`) -/

/-- Outcome of one call to `requests.get`: either an HTTP response carrying a
status code and the result of a later `response.json()` call (which may itself
raise on an invalid body), or a network-level `requests.exceptions.RequestException`. -/
inductive Attempt where
  | response (status : Nat) (body : Except String JVal)
  | netErr (msg : String)

/-- A behaviour of the bibliographic API: the outcome of the `i`-th issued
`requests.get` call of the client's lifetime. -/
def ApiBehavior : Type := Nat → Attempt

/-- One `time.sleep` call performed by `_make_request`: the fixed-rate
inter-request pause of `delay` seconds, or an exponential-backoff pause. -/
inductive Sleep where
  | rate (d : ℚ)
  | backoff (d : ℚ)

/-- Result of a `_make_request` call: the request outcome together with the
updated issued-request index, the updated `request_count`, and the `time.sleep`
calls performed, in order. -/
structure ReqOut where
  result : Except String (Nat × Except String JVal)
  issued : Nat
  rc : Nat
  sleeps : List Sleep

/-- The retry loop body of `_make_request`, one recursive step per iteration of
`for attempt in range(self.max_retries)`.  `remaining` counts the iterations
still to run (`maxRetries - attempt`); a successful return carries the attempt
index on which HTTP 200 was obtained and the json body.  `issued` indexes the
oracle (one slot per `requests.get` call); `rc` is `self.request_count`, which
is incremented only after `requests.get` returns (so not on a network error). -/
def makeRequestGo (api : ApiBehavior) (maxRetries : Nat) (delay : ℚ) :
    Nat → Nat → Nat → Nat → List Sleep → ReqOut
  | 0, _, issued, rc, sleeps =>
      -- loop exhausted without return: `raise Exception("All ... attempts failed")`
      ⟨.error "All attempts failed", issued, rc, sleeps⟩
  | remaining + 1, attempt, issued, rc, sleeps =>
      -- rate limiting: `if self.request_count > 0: time.sleep(self.delay)`
      let sleeps := if rc > 0 then sleeps ++ [Sleep.rate delay] else sleeps
      match api issued with
      | .netErr m =>
          -- `except requests.exceptions.RequestException`; request_count not incremented
          if attempt = maxRetries - 1 then ⟨.error m, issued + 1, rc, sleeps⟩
          else
            makeRequestGo api maxRetries delay remaining (attempt + 1) (issued + 1) rc
              (sleeps ++ [Sleep.backoff (delay * 2 ^ attempt)])
      | .response status body =>
          let rc := rc + 1
          if status = 200 then ⟨.ok (attempt, body), issued + 1, rc, sleeps⟩
          else if status = 429 then
            makeRequestGo api maxRetries delay remaining (attempt + 1) (issued + 1) rc
              (sleeps ++ [Sleep.backoff (delay * 2 ^ attempt)])
          else
            -- other status: retry without sleeping; raise on the last attempt
            if attempt = maxRetries - 1 then
              ⟨.error ("Failed after attempts: " ++ toString status), issued + 1, rc, sleeps⟩
            else
              makeRequestGo api maxRetries delay remaining (attempt + 1) (issued + 1) rc sleeps

/-- The method `OpenAlexAPI._make_request`, started with the given issued-request index and
`request_count`. -/
def makeRequest (api : ApiBehavior) (maxRetries : Nat) (delay : ℚ)
    (issued rc : Nat) : ReqOut :=
  makeRequestGo api maxRetries delay maxRetries 0 issued rc []

/-! ### Resolver and paginator (`get_openalex_id`, `get_citation_url`, `query_citation_url`) -/

/-- Session state threaded through the stages: the issued-request index (the
oracle cursor) and `self.request_count`. -/
def St : Type := Nat × Nat

/-- A `_make_request(...)` call immediately followed by `response.json()`, the
pattern at both call sites in the source; sleeps are not observed by the
pipeline claims and are discarded, and the configured delay does not influence
the returned data. -/
def makeRequestE (api : ApiBehavior) (maxRetries : Nat) (st : St) :
    Except String JVal × St :=
  let out := makeRequest api maxRetries 1 st.1 st.2
  match out.result with
  | .error e => (.error e, (out.issued, out.rc))
  | .ok (_, body) => (body, (out.issued, out.rc))

/-- The resolver `get_openalex_id`: one search request; `None` (embedded as `.null`) when
the `results` list is falsy, else the first result, which is also stored in
`self.query_alex_repsone`. -/
def get_openalex_id (api : ApiBehavior) (maxRetries : Nat) (st : St) :
    Except String (JVal × St) :=
  match makeRequestE api maxRetries st with
  | (.error e, _) => .error e
  | (.ok data, st') =>
      match objGet data "results" with
      | .error e => .error e
      | .ok results =>
          if ¬ results.truthy then .ok (.null, st')
          else
            match results.index0 with
            | .error e => .error e
            | .ok first => .ok (first, st')

/-- The stage `get_citation_url` in the state reached from `get_citations` (the resolved
paper is known truthy there, so only the then-branch of the source is
reachable): `self.citation_url = self.query_alex_repsone.get('cited_by_api_url', None)`. -/
def get_citation_url (paper : JVal) : Except String JVal :=
  objGetD paper "cited_by_api_url" .null

/-- One pass of the `while len(all_citations) < max_citations` loop of
`query_citation_url`, with explicit fuel.  Every continuing iteration extends
the accumulator by a full page of `per_page = 25` items, so the loop runs at
most `max_citations / 25 + 1` times and the fuel `max_citations + 1` supplied
by the wrapper is never exhausted; the fuel-exhausted branch coincides with a
`break` anyway.  Any exception inside an iteration (failed request, invalid
json, non-dict payload, non-iterable `results`) is caught by the per-page
`except` and breaks the loop with the partial accumulation. -/
def queryCitationGo (api : ApiBehavior) (maxRetries : Nat) (maxCitations : Nat) :
    Nat → List JVal → St → List JVal × St
  | 0, acc, st => (acc, st)
  | fuel + 1, acc, st =>
      if acc.length < maxCitations then
        match makeRequestE api maxRetries st with
        | (.error _, st') => (acc, st')
        | (.ok data, st') =>
            match objGet data "results" with
            | .error _ => (acc, st')
            | .ok results =>
                -- `if not data.get('results'): break`
                if ¬ results.truthy then (acc, st')
                else
                  match results.elems with
                  | .error _ => (acc, st')    -- `all_citations.extend(...)` raised
                  | .ok items =>
                      let acc := acc ++ items
                      -- `if len(citations) < per_page: break`
                      if items.length < 25 then (acc, st')
                      else queryCitationGo api maxRetries maxCitations fuel acc st'
      else (acc, st)

/-- The paginator `query_citation_url` in the state reached from `get_citations` (the
citation url is known truthy there): paginate, then truncate with
`all_citations[:max_citations]`. -/
def query_citation_url (api : ApiBehavior) (maxRetries : Nat) (maxCitations : Nat)
    (st : St) : List JVal × St :=
  let (all, st') := queryCitationGo api maxRetries maxCitations (maxCitations + 1) [] st
  (all.take maxCitations, st')

/-! ### The record normalizer (body of the `for cite in self.cites` loop) -/

/-- Python `v if isinstance(v, list) else []`, for the `related_works`,
`referenced_works` and `authorships` fields. -/
def asListOr (v : JVal) : List JVal :=
  match v with
  | .list xs => xs
  | _ => []

/-- The author display-name chain:
`(author.get('author') or {}).get('display_name') or author.get('raw_author_name')
or (institutions head display name, guarded) or ''`, for one `author` element;
non-dict elements yield `''` without raising. -/
def authorName (author : JVal) : Except String JVal :=
  match author with
  | .obj afs =>
      let a := pyOr ((lookupJ afs (.str "author")).getD .null) (.obj [])
      match objGet a "display_name" with
      | .error e => .error e
      | .ok a1 =>
          if a1.truthy then .ok a1
          else
            let a2 := (lookupJ afs (.str "raw_author_name")).getD .null
            if a2.truthy then .ok a2
            else
              let insts := (lookupJ afs (.str "institutions")).getD .null
              if insts.isList && insts.truthy then
                match (pyOr insts (.list [.obj []])).index0 with
                | .error e => .error e
                | .ok inst0 =>
                    match objGet inst0 "display_name" with
                    | .error e => .error e
                    | .ok a3 => if a3.truthy then .ok a3 else .ok (.str "")
              else .ok (.str "")   -- the conditional expression yields None, then `or ''`
  | _ => .ok (.str "")

/-- The chain `authorName` mapped over the (already list-coerced) `authorships`. -/
def authorsOf : List JVal → Except String (List JVal)
  | [] => .ok []
  | a :: rest =>
      match authorName a with
      | .error e => .error e
      | .ok n =>
          match authorsOf rest with
          | .error e => .error e
          | .ok ns => .ok (n :: ns)

/-- The venue expression
`(cite.get('primary_location') or {}).get('source', {}).get('display_name', '')`.
Note that only the first hop is `or {}`-guarded: a truthy non-dict
`primary_location`, or a `source` key holding `None` or any non-dict, raises
`AttributeError` (skipping the record), while a *missing* `source` falls back
to `{}` and a missing `display_name` to `''`. -/
def venueOf (cite : JVal) : Except String JVal :=
  match objGet cite "primary_location" with
  | .error e => .error e
  | .ok pl =>
      match objGetD (pyOr pl (.obj [])) "source" (.obj []) with
      | .error e => .error e
      | .ok src => objGetD src "display_name" (.str "")

/-- Python `(c.get('display_name', '') if isinstance(c, dict) else '')` over the
iterable `cite.get('concepts') or []`. -/
def conceptsOf : List JVal → Except String (List JVal)
  | [] => .ok []
  | c :: rest =>
      match (if c.isObj then objGetD c "display_name" (.str "") else .ok (.str "")) with
      | .error e => .error e
      | .ok n =>
          match conceptsOf rest with
          | .error e => .error e
          | .ok ns => .ok (n :: ns)

/-! ### Abstract reconstruction (`_reconstruct_abstract`) -/

/-- Flattening of the inverted index: `for word, positions in items: for pos in
positions: words.append((pos, word))`. -/
def flattenInv : List (JVal × JVal) → Except String (List (JVal × JVal))
  | [] => .ok []
  | (word, positions) :: rest =>
      match positions.elems with
      | .error e => .error e
      | .ok ps =>
          match flattenInv rest with
          | .error e => .error e
          | .ok tail => .ok (ps.map (fun p => (p, word)) ++ tail)

/-- Stable insertion of a keyed element: it goes before the first strictly
larger key, hence after all equal keys, as in a stable sort. -/
def insertByPos (x : Int × JVal) : List (Int × JVal) → List (Int × JVal)
  | [] => [x]
  | y :: ys => if x.1 < y.1 then x :: y :: ys else y :: insertByPos x ys

/-- Left-to-right stable insertion sort by position, the order produced by
Python's stable `words.sort(key=lambda x: x[0])`. -/
def stableSortByPos (l : List (Int × JVal)) : List (Int × JVal) :=
  l.foldl (fun acc x => insertByPos x acc) []

/-- All positions as integers, or `none` if some position is not a number (in
which case a sort of two or more elements performs a mixed-type comparison and
raises `TypeError`). -/
def intPositions : List (JVal × JVal) → Option (List (Int × JVal))
  | [] => some []
  | (.num n, w) :: rest =>
      match intPositions rest with
      | some ps => some ((n, w) :: ps)
      | none => none
  | _ => none

/-- Python `' '.join(...)`: every element must be a string, joined with single spaces. -/
def joinWords : List JVal → Except String String
  | [] => .ok ""
  | [.str w] => .ok w
  | .str w :: rest =>
      match joinWords rest with
      | .error e => .error e
      | .ok t => .ok (w ++ " " ++ t)
  | _ => .error "TypeError: join"

/-- The method `OpenAlexAPI._reconstruct_abstract`: empty or falsy index yields `""`;
otherwise flatten to `(position, word)` pairs, stable-sort by position
ascending (a sort of at least two elements requires comparable, i.e. numeric,
positions; a zero- or one-element word list performs no comparison), and join
the words with spaces. -/
def _reconstruct_abstract (inv : JVal) : Except String String :=
  match inv with
  | .obj fs =>
      if fs.isEmpty then .ok ""
      else
        match flattenInv fs with
        | .error e => .error e
        | .ok words =>
            if words.length ≤ 1 then joinWords (words.map Prod.snd)
            else
              match intPositions words with
              | none => .error "TypeError: comparison"
              | some keyed => joinWords ((stableSortByPos keyed).map Prod.snd)
  | _ => .error "AttributeError: items"

/-- The `citation_data` dict literal, fields in source order, with the optional
`abstract` entry appended afterwards exactly when reconstruction ran. -/
def mkCitationData (title oid cbc py : JVal) (related refs authors : List JVal)
    (venue doi : JVal) (concepts : List JVal) (ty lang isOa oaUrl : JVal)
    (abstract : Option String) : JVal :=
  .obj ([ (.str "title", title),
          (.str "openalex_id", oid),
          (.str "cited_by_count", cbc),
          (.str "publication_year", py),
          (.str "related_works", .list related),
          (.str "references", .list refs),
          (.str "authors", .list authors),
          (.str "venue", venue),
          (.str "doi", doi),
          (.str "concepts", .list concepts),
          (.str "type", ty),
          (.str "language", lang),
          (.str "is_oa", isOa),
          (.str "oa_url", oaUrl) ] ++
        (match abstract with
         | some a => [(.str "abstract", .str a)]
         | none => []))

/-- The try-block body normalizing one raw citation record: build
`citation_data` (any exception is the caller's signal to skip the record),
evaluating the fields in source order.  Non-dict records are rejected before
the try in the source; here they produce an error equally treated as a skip. -/
def normalizeRecord (cite : JVal) (include_abstracts : Bool) : Except String JVal :=
  match cite with
  | .obj cfs =>
      let related := asListOr ((lookupJ cfs (.str "related_works")).getD .null)
      let refs := asListOr ((lookupJ cfs (.str "referenced_works")).getD .null)
      let authorships := asListOr ((lookupJ cfs (.str "authorships")).getD .null)
      match authorsOf authorships with
      | .error e => .error e
      | .ok authors =>
      match venueOf cite with
      | .error e => .error e
      | .ok venue =>
      match (pyOr ((lookupJ cfs (.str "concepts")).getD .null) (.list [])).elems with
      | .error e => .error e
      | .ok cElems =>
      match conceptsOf cElems with
      | .error e => .error e
      | .ok concepts =>
      match objGetD (pyOr ((lookupJ cfs (.str "open_access")).getD .null) (.obj []))
              "is_oa" (.bool false) with
      | .error e => .error e
      | .ok isOa =>
      match objGetD (pyOr ((lookupJ cfs (.str "open_access")).getD .null) (.obj []))
              "oa_url" .null with
      | .error e => .error e
      | .ok oaUrl =>
        let title := (lookupJ cfs (.str "title")).getD (.str "Unknown Title")
        let oid := (lookupJ cfs (.str "id")).getD .null
        let cbc := (lookupJ cfs (.str "cited_by_count")).getD (.num 0)
        let py := (lookupJ cfs (.str "publication_year")).getD .null
        let doi := (lookupJ cfs (.str "doi")).getD .null
        let ty := (lookupJ cfs (.str "type")).getD (.str "journal-article")
        let lang := (lookupJ cfs (.str "language")).getD (.str "en")
        if include_abstracts then
          let inv := pyOr ((lookupJ cfs (.str "abstract_inverted_index")).getD .null) (.obj [])
          if inv.isObj && inv.truthy then
            match _reconstruct_abstract inv with
            | .error e => .error e
            | .ok a =>
                .ok (mkCitationData title oid cbc py (related.take 10) (refs.take 10)
                      authors venue doi concepts ty lang isOa oaUrl (some a))
          else
            .ok (mkCitationData title oid cbc py (related.take 10) (refs.take 10)
                  authors venue doi concepts ty lang isOa oaUrl none)
        else
          .ok (mkCitationData title oid cbc py (related.take 10) (refs.take 10)
                authors venue doi concepts ty lang isOa oaUrl none)
  | _ => .error "TypeError: not a dict"

/-- One iteration of the `for cite in self.cites` loop: skip non-dict entries;
normalize, then store under `cite.get('id') or f"unknown_{len(citations)}"`;
a per-record exception (including an unhashable key in the store itself)
leaves the accumulated dict unchanged. -/
def storeStep (include_abstracts : Bool) (citations : List (JVal × JVal))
    (cite : JVal) : List (JVal × JVal) :=
  match cite with
  | .obj cfs =>
      match normalizeRecord cite include_abstracts with
      | .error _ => citations
      | .ok cdata =>
          let key := pyOr ((lookupJ cfs (.str "id")).getD .null)
                          (.str ("unknown_" ++ toString citations.length))
          if key.hashable then insertJ citations key cdata else citations
  | _ => citations

/-- The whole citation-processing loop, producing the `citations` dict. -/
def processCites (include_abstracts : Bool) (cites : List JVal) : List (JVal × JVal) :=
  cites.foldl (storeStep include_abstracts) []

/-- The `collection_metadata` dict: query echo, stored-entry count, elapsed
ticks since client construction, request count, and the root-paper snapshot. -/
def metadataOf (query : String) (total : Nat) (elapsed : Int) (rc : Nat)
    (paper : JVal) : Except String JVal := do
  let t ← objGetD paper "title" (.str "")
  let i ← objGetD paper "id" (.str "")
  let c ← objGetD paper "cited_by_count" (.num 0)
  let p ← objGetD paper "publication_year" .null
  .ok (.obj [ (.str "query", .str query),
              (.str "total_citations", .num total),
              (.str "collection_time", .num elapsed),
              (.str "requests_made", .num rc),
              (.str "main_paper", .obj [ (.str "title", t), (.str "id", i),
                (.str "cited_by_count", c), (.str "publication_year", p) ]) ])

/-- The expression `self.query_alex_repsone.get('id', "root")`, the root key of the result
(computed identically at both of its two source occurrences; it is pure, so it
is hoisted once here). -/
def rootIdOf (paper : JVal) : Except String JVal :=
  objGetD paper "id" (.str "root")

/-- The try-block body of `get_citations`: resolve the paper, read the
citation url, paginate, normalize, assemble.  `.error` marks any exception
reaching the top-level `except` handler (which includes a `TypeError` from
using an unhashable root id as a dict key when building the result). -/
def getCitationsRaw (api : ApiBehavior) (maxRetries : Nat) (query : String)
    (maxCitations : Nat) (include_abstracts : Bool) (startTime now : Int) :
    Except String JVal :=
  match get_openalex_id api maxRetries (0, 0) with
  | .error e => .error e
  | .ok (paper, st1) =>
    if ¬ paper.truthy then .ok (.obj [])     -- "Could not find the main paper"
    else
      match get_citation_url paper with
      | .error e => .error e
      | .ok url =>
        if ¬ url.truthy then .ok (.obj [])   -- "Could not get citation URL"
        else
          let (cites, st2) := query_citation_url api maxRetries maxCitations st1
          match rootIdOf paper with
          | .error e => .error e
          | .ok rid =>
            if cites.isEmpty then
              -- `return {self.query_alex_repsone.get('id', "root"): {}}`
              if rid.hashable then .ok (.obj [(rid, .obj [])])
              else .error "TypeError: unhashable key"
            else
              let citations := processCites include_abstracts cites
              match metadataOf query citations.length (now - startTime) st2.2 paper with
              | .error e => .error e
              | .ok meta =>
                if rid.hashable then
                  .ok (.obj (insertJ (insertJ [] rid (.obj citations))
                        (.str "_metadata") meta))
                else .error "TypeError: unhashable key"

/-- The orchestrator `OpenAlexAPI.get_citations`: the try-block wrapped in
`except Exception: return {}`, so the caller always receives a dict. -/
def get_citations (api : ApiBehavior) (maxRetries : Nat) (query : String)
    (maxCitations : Nat) (include_abstracts : Bool) (startTime now : Int) : JVal :=
  match getCitationsRaw api maxRetries query maxCitations include_abstracts startTime now with
  | .ok v => v
  | .error _ => .obj []

/-! ### `graph_builder.extract_id`: `urlparse(url).path.split('/')[-1]`

`urllib.parse.urlparse` is modelled at the character level, following the
CPython algorithm (as shipped in all currently supported CPython versions):
first the WHATWG cleanup of `urlsplit` — strip leading C0-control/space
characters, then remove every tab, CR and LF — then split off a valid scheme
(an ASCII letter followed by letters/digits/`+`/`-`/`.`, up to the first `:`,
kept lowercased), strip a `//`-introduced netloc (up to the first `/`, `?` or
`#`), cut the fragment at the first `#` and the query at the first `?`; then
`urlparse` splits parameters at the first `;` of the last path segment, but
only when the scheme is one of `uses_params`.  `path.split('/')[-1]` is the
suffix after the last `/`. -/

/-- Split a character list around the first occurrence of `c`, if any. -/
def splitAtFirst (c : Char) : List Char → Option (List Char × List Char)
  | [] => none
  | x :: xs =>
      if x = c then some ([], xs)
      else
        match splitAtFirst c xs with
        | some (a, b) => some (x :: a, b)
        | none => none

/-- The characters `urlsplit` removes from anywhere in the url before parsing
(CPython's `_UNSAFE_URL_BYTES_TO_REMOVE`: tab, CR, LF). -/
def tabOrNewline (c : Char) : Bool := c = '\t' || c = '\r' || c = '\n'

/-- C0 control characters and space (CPython's `_WHATWG_C0_CONTROL_OR_SPACE`),
which `urlsplit` strips from the front of the url. -/
def c0ControlOrSpace (c : Char) : Bool := decide (c.toNat ≤ 0x20)

/-- The WHATWG normalization `urlsplit` performs first:
`url.lstrip(_WHATWG_C0_CONTROL_OR_SPACE)` followed by removal of every tab,
CR and LF. -/
def cleanUrl (l : List Char) : List Char :=
  (l.dropWhile c0ControlOrSpace).filter (fun c => !tabOrNewline c)

/-- Characters allowed in a URL scheme after the leading letter. -/
def schemeChar (c : Char) : Bool := c.isAlphanum || c = '+' || c = '-' || c = '.'

/-- Split off `scheme:` when the text before the first `:` is nonempty, begins
with an ASCII letter and continues with scheme characters: the result is the
lowercased scheme and the remainder; otherwise the scheme is empty and the
url is left whole. -/
def splitScheme (l : List Char) : List Char × List Char :=
  match splitAtFirst ':' l with
  | some (c0 :: rest, post) =>
      if c0.isAlpha && rest.all schemeChar then ((c0 :: rest).map Char.toLower, post)
      else ([], l)
  | some ([], _) => ([], l)
  | none => ([], l)

/-- The schemes for which `urlparse` splits parameters (CPython
`uses_params`). -/
def uses_params : List String :=
  ["", "ftp", "hdl", "prospero", "http", "imap", "https", "shttp", "rtsp",
   "rtsps", "rtspu", "sip", "sips", "mms", "sftp", "tel"]

/-- A character ending the netloc portion. -/
def netlocDelim (c : Char) : Bool := c = '/' || c = '?' || c = '#'

/-- Strip `//netloc` when present: drop the two slashes and everything up to
the first `/`, `?` or `#`. -/
def stripNetloc (l : List Char) : List Char :=
  match l with
  | a :: b :: rest =>
      if a = '/' ∧ b = '/' then rest.dropWhile (fun c => !netlocDelim c) else l
  | _ => l

/-- Cut the fragment: keep what precedes the first `#`. -/
def dropFragment (l : List Char) : List Char :=
  match splitAtFirst '#' l with
  | some (a, _) => a
  | none => l

/-- Cut the query: keep what precedes the first `?`. -/
def dropQuery (l : List Char) : List Char :=
  match splitAtFirst '?' l with
  | some (a, _) => a
  | none => l

/-- Split `urlparse` parameters: when the url contains a `/`, the `;` search
starts at the last `/` (so only the last segment is trimmed); otherwise the
whole url is trimmed at its first `;`. -/
def dropParams (l : List Char) : List Char :=
  if '/' ∈ l then
    let r := l.reverse
    let lastSegR := r.takeWhile (fun c => c ≠ '/')
    let preR := r.dropWhile (fun c => c ≠ '/')
    preR.reverse ++ lastSegR.reverse.takeWhile (fun c => c ≠ ';')
  else l.takeWhile (fun c => c ≠ ';')

/-- The `.path` attribute of `urlparse(url)`: WHATWG cleanup, then scheme,
netloc, fragment and query splitting (`urlsplit`), then parameter splitting
only when the scheme is in `uses_params` and the remaining url contains a `;`.
The `Invalid IPv6 URL` `ValueError` that `urlsplit` raises for a netloc
containing an unmatched square bracket (instead of returning any path) is not
modelled: no statement below concerns such inputs — their hypotheses and
concrete inputs exclude bracketed netlocs. -/
def urlparsePath (l : List Char) : List Char :=
  let cleaned := cleanUrl l
  let sr := splitScheme cleaned
  let path := dropQuery (dropFragment (stripNetloc sr.2))
  if String.mk sr.1 ∈ uses_params ∧ ';' ∈ path then dropParams path else path

/-- Python `path.split('/')[-1]`: the suffix after the last `/` (the whole text when
no `/` occurs). -/
def lastSeg (l : List Char) : List Char :=
  (l.reverse.takeWhile (fun c => c ≠ '/')).reverse

/-- The function `graph_builder.extract_id`. -/
def extract_id (s : String) : String :=
  String.mk (lastSeg (urlparsePath s.data))

/-! ### `graph_builder.build_citation_graph` -/

/-- The `networkx.DiGraph` portions observed by the claims: node list with
`label`/`type` attributes, and the (deduplicated) edge set.  `add_node` on an
existing node updates its attributes in place; `add_edge` is idempotent. -/
structure CGraph where
  nodes : List (String × JVal × String)
  edges : List (String × String)

/-- The call `G.add_node(id, label=l, type=t)`. -/
def addNodeL : List (String × JVal × String) → String → JVal → String →
    List (String × JVal × String)
  | [], id, l, t => [(id, l, t)]
  | (i, l0, t0) :: rest, id, l, t =>
      if i = id then (i, l, t) :: rest else (i, l0, t0) :: addNodeL rest id l t

/-- The call `G.add_edge(a, b)` (both endpoints already exist at every call site). -/
def addEdgeL (es : List (String × String)) (e : String × String) :
    List (String × String) :=
  if e ∈ es then es else es ++ [e]

/-- Step 2 of `build_citation_graph`: one `cited` node per key's extracted id,
labelled with the record's title (default `"Paper <id>"`); a non-dict record
value makes `data[pid].get('title', …)` raise `AttributeError`. -/
def addCitedNodes (g : CGraph) (l : List (String × JVal)) : Except String CGraph :=
  match l with
  | [] => .ok g
  | (pid, v) :: rest =>
      let pe := extract_id pid
      match objGetD v "title" (.str ("Paper " ++ pe)) with
      | .error e => .error e
      | .ok title => addCitedNodes ⟨addNodeL g.nodes pe title "cited", g.edges⟩ rest

/-- Step 3 of `build_citation_graph`: one edge `extracted → root` per key whose
extracted id differs from the root's, recorded both in the graph (deduplicated)
and in the returned `edges` list (one entry per key). -/
def addRootEdges (g : CGraph) (l : List (String × JVal)) (root : String) :
    CGraph × List (String × String) :=
  match l with
  | [] => (g, [])
  | (pid, _) :: rest =>
      let pe := extract_id pid
      if pe ≠ root then
        let g' : CGraph := ⟨g.nodes, addEdgeL g.edges (pe, root)⟩
        let (g'', es) := addRootEdges g' rest root
        (g'', (pe, root) :: es)
      else addRootEdges g rest root

/-- The function `build_citation_graph(root_id, data, root_title)`.  `data` is the citation
mapping; Python dict keys are distinct, and the `set(data.keys())` iteration
is modelled in the mapping's own order (every property claimed is invariant
under the iteration order).  A non-dict value makes `data[pid].get('title', …)`
raise, which propagates to the caller (`.error`). -/
def build_citation_graph (rootId : String) (data : List (String × JVal))
    (rootTitle : Option String) :
    Except String (CGraph × List (String × String)) :=
  let root := extract_id rootId
  -- `root_label = root_title if root_title else f"Paper {root_id}"`
  let rootLabel : JVal :=
    match rootTitle with
    | some t => if t ≠ "" then .str t else .str ("Paper " ++ root)
    | none => .str ("Paper " ++ root)
  let g0 : CGraph := ⟨addNodeL [] root rootLabel "root", []⟩
  match addCitedNodes g0 data with
  | .error e => .error e
  | .ok g1 => .ok (addRootEdges g1 data root)

/-! ### Auxiliary lemmas -/

theorem beqJ_str_right_eq_false {v : JVal} {s : String} (h : v ≠ .str s) :
    beqJ v (.str s) = false := by
  cases v with
  | str t =>
      simp only [beqJ, decide_eq_false_iff_not]
      intro hts; exact h (by rw [hts])
  | null => rfl
  | bool b => rfl
  | num n => rfl
  | list xs => rfl
  | obj fs => rfl

theorem insertJ_append_of_not_mem {d : List (JVal × JVal)} {k : JVal}
    (h : ∀ p ∈ d, beqJ p.1 k = false) (v : JVal) :
    insertJ d k v = d ++ [(k, v)] := by
  induction d with
  | nil => rfl
  | cons p rest ih =>
      obtain ⟨k0, v0⟩ := p
      simp only [insertJ, h (k0, v0) (by simp)]
      simp only [Bool.false_eq_true, if_false, List.cons_append, List.cons.injEq, true_and]
      exact ih (fun q hq => h q (by simp [hq]))

/-! ### Claim C2: retry behaviour of `_make_request` -/

/-- C2.  For a client with `max_retries = 3` (and any configured delay and
response bodies): when the successive responses are 429, 429, 200, the request
succeeds on the third attempt (attempt index 2) with the 200 body, after
backoff sleeps of `delay * 2^0` and `delay * 2^1` before the two 429 retries
(interleaved with the fixed-rate `delay` pause that precedes every request
after the first); when the three attempts all return status 500, the call
fails terminally after the third attempt (three requests issued, then the
exception is raised). -/
theorem c2_make_request_retry (delay : ℚ) (b0 b1 b2 e0 : Except String JVal) :
    ((makeRequest (fun i => if i = 0 then Attempt.response 429 b0
        else if i = 1 then Attempt.response 429 b1 else Attempt.response 200 b2)
        3 delay 0 0).result = .ok (2, b2)
      ∧ (makeRequest (fun i => if i = 0 then Attempt.response 429 b0
          else if i = 1 then Attempt.response 429 b1 else Attempt.response 200 b2)
          3 delay 0 0).sleeps
        = [Sleep.backoff (delay * 2 ^ 0), Sleep.rate delay,
           Sleep.backoff (delay * 2 ^ 1), Sleep.rate delay])
    ∧ ((makeRequest (fun _ => Attempt.response 500 e0) 3 delay 0 0).result
        = .error "Failed after attempts: 500"
      ∧ (makeRequest (fun _ => Attempt.response 500 e0) 3 delay 0 0).rc = 3) := by
  refine ⟨⟨?_, ?_⟩, ?_, ?_⟩ <;> (simp [makeRequest, makeRequestGo]; try rfl)

/-! ### Claim C3: pagination of `query_citation_url` -/

/-- A 200 page whose `results` list holds `n` records. -/
def pageOf (n : Nat) : Except String JVal :=
  .ok (.obj [(.str "results", .list (List.replicate n (.obj [(.str "x", .null)])))])

/-- API behaviour serving pages of sizes 25, 25, 10 (then empty). -/
def c3api : ApiBehavior := fun i =>
  .response 200 (pageOf (if i = 0 then 25 else if i = 1 then 25 else if i = 2 then 10 else 0))

/-- API behaviour serving one full page and then network errors. -/
def c3apiErr : ApiBehavior := fun i =>
  if i = 0 then .response 200 (pageOf 25) else .netErr "connection reset"

/-- API behaviour serving one full page and then pages with zero results. -/
def c3apiEmpty : ApiBehavior := fun i =>
  if i = 0 then .response 200 (pageOf 25) else .response 200 (pageOf 0)

/-- API behaviour serving full pages forever. -/
def c3apiFull : ApiBehavior := fun _ => .response 200 (pageOf 25)

/-- C3.  `query_citation_url` never returns more than `max_citations` records
(for every API behaviour, retry bound, target and starting state), and
pagination stops exactly at the documented events: pages of sizes 25, 25, 10
with `max_citations = 100` yield exactly 60 records (short page stops);
a page-fetch error after one full page yields the 25 partial records; a
zero-result page after one full page likewise stops at 25; and with full pages
forever and `max_citations = 50` exactly 50 records are returned (target
reached). -/
theorem c3_pagination_stops :
    (∀ (api : ApiBehavior) (maxRetries maxCitations : Nat) (st : St),
        (query_citation_url api maxRetries maxCitations st).1.length ≤ maxCitations)
    ∧ (query_citation_url c3api 3 100 (0, 0)).1.length = 60
    ∧ (query_citation_url c3apiErr 3 100 (0, 0)).1.length = 25
    ∧ (query_citation_url c3apiEmpty 3 100 (0, 0)).1.length = 25
    ∧ (query_citation_url c3apiFull 3 50 (0, 0)).1.length = 50 := by
  refine ⟨fun api mr maxC st => ?_, by decide, by decide, by decide, by decide⟩
  simp only [query_citation_url]
  exact (List.length_take_le _ _)

/-! ### Claim C7: abstract reconstruction -/

/-- C7.  Reconstruction from an inverted index is deterministic (it is a pure
function of the index, so reconstructing twice from the same index yields the
same string); the index `{"a": [0, 2], "b": [1]}` reconstructs to `"a b a"`;
and a tie on positions is resolved by the index's original iteration order
(stable sort): for any two words with the same single position, the first
listed word comes first. -/
theorem c7_reconstruct_abstract :
    (∀ i j : JVal, i = j → _reconstruct_abstract i = _reconstruct_abstract j)
    ∧ _reconstruct_abstract
        (.obj [(.str "a", .list [.num 0, .num 2]), (.str "b", .list [.num 1])])
        = .ok "a b a"
    ∧ ∀ (a b : String) (p : Int),
        _reconstruct_abstract (.obj [(.str a, .list [.num p]), (.str b, .list [.num p])])
          = .ok (a ++ " " ++ b) := by
  refine ⟨fun i j h => by rw [h], rfl, fun a b p => ?_⟩
  simp [_reconstruct_abstract, flattenInv, JVal.elems, intPositions, stableSortByPos,
    insertByPos, joinWords, lt_self_iff_false]

/-- Witness for C7 at concrete inputs: determinism applied at the index of the
worked example, and tie-breaking applied at `{"x": [5], "y": [5]}`. -/
theorem c7_reconstruct_abstract_witness :
    _reconstruct_abstract
        (.obj [(.str "a", .list [.num 0, .num 2]), (.str "b", .list [.num 1])])
      = _reconstruct_abstract
        (.obj [(.str "a", .list [.num 0, .num 2]), (.str "b", .list [.num 1])])
    ∧ _reconstruct_abstract (.obj [(.str "x", .list [.num 5]), (.str "y", .list [.num 5])])
      = .ok ("x" ++ " " ++ "y") :=
  ⟨c7_reconstruct_abstract.1 _ _ rfl, c7_reconstruct_abstract.2.2 "x" "y" 5⟩

/-! ### Claim C10: `extract_id` on plain identifiers -/

theorem splitAtFirst_of_not_mem {c : Char} :
    ∀ {l : List Char}, c ∉ l → splitAtFirst c l = none
  | [], _ => rfl
  | x :: xs, h => by
      have hx : x ≠ c := fun hh => h (by simp [hh])
      have hxs : c ∉ xs := fun hh => h (List.mem_cons_of_mem _ hh)
      simp [splitAtFirst, hx, splitAtFirst_of_not_mem hxs]

theorem takeWhile_eq_self_of_all {α : Type _} (p : α → Bool) :
    ∀ (l : List α), (∀ x ∈ l, p x = true) → l.takeWhile p = l
  | [], _ => rfl
  | x :: xs, h => by
      simp [List.takeWhile_cons, h x (by simp),
        takeWhile_eq_self_of_all p xs (fun y hy => h y (by simp [hy]))]

theorem takeWhile_append_of_all {α : Type _} (p : α → Bool) :
    ∀ (l₁ l₂ : List α), (∀ x ∈ l₁, p x = true) →
      (l₁ ++ l₂).takeWhile p = l₁ ++ l₂.takeWhile p
  | [], _, _ => rfl
  | x :: xs, l₂, h => by
      simp [List.takeWhile_cons, h x (by simp),
        takeWhile_append_of_all p xs l₂ (fun y hy => h y (by simp [hy]))]

/-- A character that none of the `urlparse` processing steps reacts to:
neither one of the five splitting separators nor a removed tab/CR/LF. -/
def plainChar (c : Char) : Bool :=
  decide (c ≠ '/') && decide (c ≠ ':') && decide (c ≠ '?') && decide (c ≠ '#') &&
    decide (c ≠ ';') && !tabOrNewline c

/-- Whether the url does not begin with a character that `urlsplit`'s leading
strip would remove (vacuously true for the empty url). -/
def leadOk : List Char → Bool
  | [] => true
  | c :: _ => !c0ControlOrSpace c

theorem plainChar_spec {c : Char} (h : plainChar c = true) :
    c ≠ '/' ∧ c ≠ ':' ∧ c ≠ '?' ∧ c ≠ '#' ∧ c ≠ ';'
      ∧ c ≠ '\t' ∧ c ≠ '\r' ∧ c ≠ '\n' := by
  simp [plainChar, tabOrNewline] at h
  tauto

theorem cleanUrl_eq_of_plain {l : List Char}
    (hp : ∀ c ∈ l, plainChar c = true) (hh : leadOk l = true) :
    cleanUrl l = l := by
  have hfil : l.filter (fun c => !tabOrNewline c) = l :=
    List.filter_eq_self.mpr (fun a ha => by
      have := plainChar_spec (hp a ha)
      simp [tabOrNewline]
      tauto)
  have hdrop : l.dropWhile c0ControlOrSpace = l := by
    cases l with
    | nil => rfl
    | cons a t =>
        have hh' : c0ControlOrSpace a = false := by simpa [leadOk] using hh
        simp [List.dropWhile_cons, hh']
  unfold cleanUrl
  rw [hdrop, hfil]

theorem splitScheme_eq_of_plain {l : List Char} (h : ∀ c ∈ l, plainChar c = true) :
    splitScheme l = ([], l) := by
  have : (':' : Char) ∉ l := fun hm => (plainChar_spec (h _ hm)).2.1 rfl
  simp [splitScheme, splitAtFirst_of_not_mem this]

theorem stripNetloc_eq_of_plain {l : List Char} (h : ∀ c ∈ l, plainChar c = true) :
    stripNetloc l = l := by
  match l with
  | [] => rfl
  | [_] => rfl
  | a :: b :: rest =>
      have ha : a ≠ '/' := (plainChar_spec (h a (by simp))).1
      simp [stripNetloc, ha]

theorem dropFragment_eq_of_not_mem {l : List Char} (h : '#' ∉ l) :
    dropFragment l = l := by
  simp [dropFragment, splitAtFirst_of_not_mem h]

theorem dropQuery_eq_of_not_mem {l : List Char} (h : '?' ∉ l) :
    dropQuery l = l := by
  simp [dropQuery, splitAtFirst_of_not_mem h]

theorem lastSeg_eq_of_plain {l : List Char} (h : ∀ c ∈ l, plainChar c = true) :
    lastSeg l = l := by
  unfold lastSeg
  rw [takeWhile_eq_self_of_all _ l.reverse fun x hx => by
    simpa using (plainChar_spec (h x (List.mem_reverse.mp hx))).1]
  exact List.reverse_reverse l

theorem urlparsePath_eq_of_plain {l : List Char}
    (hp : ∀ c ∈ l, plainChar c = true) (hh : leadOk l = true) :
    urlparsePath l = l := by
  have hsemi : (';' : Char) ∉ l := fun hm => (plainChar_spec (hp _ hm)).2.2.2.2.1 rfl
  have hfrag : ('#' : Char) ∉ l := fun hm => (plainChar_spec (hp _ hm)).2.2.2.1 rfl
  have hquery : ('?' : Char) ∉ l := fun hm => (plainChar_spec (hp _ hm)).2.2.1 rfl
  simp only [urlparsePath, cleanUrl_eq_of_plain hp hh, splitScheme_eq_of_plain hp,
    stripNetloc_eq_of_plain hp, dropFragment_eq_of_not_mem hfrag,
    dropQuery_eq_of_not_mem hquery]
  rw [if_neg (fun hand => hsemi hand.2)]

/-- On a string free of the `urlparse` separators and of tab/CR/LF, not
beginning with a stripped character, `extract_id` is the identity. -/
theorem extract_id_plain {s : String}
    (hp : ∀ c ∈ s.data, plainChar c = true) (hh : leadOk s.data = true) :
    extract_id s = s := by
  unfold extract_id
  rw [urlparsePath_eq_of_plain hp hh, lastSeg_eq_of_plain hp]

/-- On the canonical OpenAlex url form with a plain id, `extract_id` returns
the id. -/
theorem extract_id_openalex_url {id : String}
    (hp : ∀ c ∈ id.data, plainChar c = true) :
    extract_id ("https://openalex.org/" ++ id) = id := by
  have hid : ∀ x ∈ id.data.reverse, decide (x ≠ '/') = true := fun x hx => by
    simpa using (plainChar_spec (hp x (List.mem_reverse.mp hx))).1
  have hfrag : ('#' : Char) ∉ '/' :: id.data := by
    intro hm
    rcases List.mem_cons.mp hm with hm | hm
    · exact absurd hm (by decide)
    · exact (plainChar_spec (hp _ hm)).2.2.2.1 rfl
  have hquery : ('?' : Char) ∉ '/' :: id.data := by
    intro hm
    rcases List.mem_cons.mp hm with hm | hm
    · exact absurd hm (by decide)
    · exact (plainChar_spec (hp _ hm)).2.2.1 rfl
  have hsemi : (';' : Char) ∉ '/' :: id.data := by
    intro hm
    rcases List.mem_cons.mp hm with hm | hm
    · exact absurd hm (by decide)
    · exact (plainChar_spec (hp _ hm)).2.2.2.2.1 rfl
  have hclean : cleanUrl ("https://openalex.org/" ++ id).data
      = "https://openalex.org/".data ++ id.data := by
    have hdrop : ("https://openalex.org/".data ++ id.data).dropWhile c0ControlOrSpace
        = "https://openalex.org/".data ++ id.data := rfl
    have hfil : id.data.filter (fun c => !tabOrNewline c) = id.data :=
      List.filter_eq_self.mpr (fun a ha => by
        have := plainChar_spec (hp a ha)
        simp [tabOrNewline]
        tauto)
    rw [String.data_append]
    unfold cleanUrl
    rw [hdrop, List.filter_append, hfil]
    rfl
  have hsch : splitScheme ("https://openalex.org/".data ++ id.data)
      = ("https".data, "//openalex.org/".data ++ id.data) := rfl
  have hnet : stripNetloc ("//openalex.org/".data ++ id.data) = '/' :: id.data := rfl
  have hlast : lastSeg ('/' :: id.data) = id.data := by
    have e1 : List.takeWhile (fun c => decide (c ≠ '/')) ['/'] = [] := rfl
    simp only [lastSeg, List.reverse_cons]
    rw [takeWhile_append_of_all _ id.data.reverse ['/'] hid, e1,
      List.append_nil, List.reverse_reverse]
  unfold extract_id
  simp only [urlparsePath, hclean, hsch, hnet,
    dropFragment_eq_of_not_mem hfrag, dropQuery_eq_of_not_mem hquery]
  rw [if_neg (fun hand => hsemi hand.2), hlast]

/-- C10 counterexample.  The string `"a?b"` contains neither `/` nor `:`, yet
`extract_id` cuts it at the `?` (the query separator of `urlparse`) and
returns `"a"`; likewise `"a\t b"`-style inputs are altered, since `urlsplit`
removes tabs anywhere: `extract_id` maps the `/`- and `:`-free string with a
tab between `a` and `b` to `"ab"`. -/
theorem c10_counterexample :
    extract_id "a?b" = "a" ∧ extract_id "a?b" ≠ "a?b"
    ∧ extract_id "a\tb" = "ab" ∧ extract_id "a\tb" ≠ "a\tb" := by
  decide

/-- C10 (amended).  `urlsplit` strips leading C0-control/space characters,
removes every tab, CR and LF, and splits at `:`, `#`, `?` (and, for
`uses_params` schemes, at a `;` in the last segment); `extract_id` then takes
the last `/`-segment.  Hence for every identifier string that contains none of
the five separators `/`, `:`, `?`, `#`, `;`, contains no tab, CR or LF, and
does not begin with a C0-control or space character, `extract_id` is the
identity; and for every url `https://openalex.org/<id>` with such an id as
final segment, `extract_id` returns the id, hence is idempotent on the url. -/
theorem c10_extract_id_plain_id :
    (∀ s : String, (∀ c ∈ s.data, plainChar c = true) → leadOk s.data = true →
        extract_id s = s)
    ∧ ∀ id : String, (∀ c ∈ id.data, plainChar c = true) → leadOk id.data = true →
        extract_id (extract_id ("https://openalex.org/" ++ id))
          = extract_id ("https://openalex.org/" ++ id) := by
  refine ⟨fun s hp hh => extract_id_plain hp hh, fun id hp hh => ?_⟩
  rw [extract_id_openalex_url hp, extract_id_plain hp hh]

/-- Witness for C10 at the docstring's example id. -/
theorem c10_extract_id_plain_id_witness :
    extract_id "W3159481202" = "W3159481202"
    ∧ extract_id (extract_id ("https://openalex.org/" ++ "W3159481202"))
        = extract_id ("https://openalex.org/" ++ "W3159481202") :=
  ⟨c10_extract_id_plain_id.1 "W3159481202" (by decide) (by decide),
   c10_extract_id_plain_id.2 "W3159481202" (by decide) (by decide)⟩

/-! ### Claim C4: the venue field -/

/-- C4 counterexample input: a raw citation record whose
`primary_location.source` hop is `None`. -/
def c4rec : JVal :=
  .obj [(.str "id", .str "W9"),
        (.str "primary_location", .obj [(.str "source", JVal.null)])]

/-- C4 counterexample.  On a record whose `source` hop is null the claim
demands a normalized record with venue `""`; instead the venue expression
raises `AttributeError` (only the `primary_location` hop is `or {}`-guarded;
`.get('source', {})` returns the stored `None`, on which `.get` fails) and the
record is skipped, not normalized. -/
theorem c4_counterexample :
    venueOf c4rec = .error "AttributeError: get"
    ∧ normalizeRecord c4rec false = .error "AttributeError: get" := ⟨rfl, rfl⟩

/-- C4 (amended).  The venue of a normalized record is the display name at
`primary_location → source → display_name` when the `source` hop holds a dict,
and `""` when `primary_location` is absent/null/falsy or the `source` or
`display_name` keys are absent; but a record whose `source` key holds a null
or non-dict value, or whose `primary_location` is truthy and not a dict, is
skipped (the per-record exception path), and a `display_name` key holding null
yields a null venue, not `""`.  Whenever normalization does succeed, the
stored `venue` field is exactly the value of the venue expression. -/
theorem c4_venue_nested_path :
    (∀ cfs : List (JVal × JVal),
      ((lookupJ cfs (.str "primary_location")).getD .null).truthy = false →
        venueOf (.obj cfs) = .ok (.str ""))
    ∧ (∀ (cfs pfs : List (JVal × JVal)),
        (lookupJ cfs (.str "primary_location")).getD .null = .obj pfs →
        lookupJ pfs (.str "source") = none →
        venueOf (.obj cfs) = .ok (.str ""))
    ∧ (∀ (cfs pfs sfs : List (JVal × JVal)),
        (lookupJ cfs (.str "primary_location")).getD .null = .obj pfs →
        lookupJ pfs (.str "source") = some (.obj sfs) →
        venueOf (.obj cfs) = .ok ((lookupJ sfs (.str "display_name")).getD (.str "")))
    ∧ (∀ (cfs pfs : List (JVal × JVal)) (s : JVal),
        (lookupJ cfs (.str "primary_location")).getD .null = .obj pfs →
        lookupJ pfs (.str "source") = some s → s.isObj = false →
        venueOf (.obj cfs) = .error "AttributeError: get")
    ∧ (∀ (cfs : List (JVal × JVal)) (pl : JVal),
        (lookupJ cfs (.str "primary_location")).getD .null = pl →
        pl.truthy = true → pl.isObj = false →
        venueOf (.obj cfs) = .error "AttributeError: get")
    ∧ (∀ (cite : JVal) (inc : Bool) (d : JVal),
        normalizeRecord cite inc = .ok d →
        ∃ fs v, d = .obj fs ∧ venueOf cite = .ok v
          ∧ lookupJ fs (.str "venue") = some v) := by
  refine ⟨?_, ?_, ?_, ?_, ?_, ?_⟩
  · intro cfs h
    simp [venueOf, objGet, objGetD, pyOr, h, lookupJ]
  · intro cfs pfs h1 h2
    simp only [venueOf, objGet, h1]
    by_cases hp : (JVal.obj pfs).truthy = true
    · simp [pyOr, hp, objGetD, h2, lookupJ]
    · simp [pyOr, hp, objGetD, lookupJ]
  · intro cfs pfs sfs h1 h2
    cases pfs with
    | nil => simp [lookupJ] at h2
    | cons p ps =>
        simp [venueOf, objGet, h1, pyOr, JVal.truthy, objGetD, h2]
  · intro cfs pfs s h1 h2 h3
    cases pfs with
    | nil => simp [lookupJ] at h2
    | cons p ps =>
        simp only [venueOf, objGet, h1, pyOr, JVal.truthy, List.isEmpty_cons,
          Bool.not_false, if_true, objGetD, h2, Option.getD_some]
        cases s with
        | obj sfs => simp [JVal.isObj] at h3
        | null => rfl
        | bool b => rfl
        | num n => rfl
        | str t => rfl
        | list xs => rfl
  · intro cfs pl h1 h2 h3
    simp only [venueOf, objGet, h1]
    cases pl with
    | null => simp [JVal.truthy] at h2
    | obj fs => simp [JVal.isObj] at h3
    | bool b =>
        simp [JVal.truthy] at h2
        simp [pyOr, JVal.truthy, h2, objGetD]
    | num n =>
        simp [JVal.truthy] at h2
        simp [pyOr, JVal.truthy, h2, objGetD]
    | str s =>
        simp [JVal.truthy] at h2
        simp [pyOr, JVal.truthy, h2, objGetD]
    | list xs =>
        simp [JVal.truthy] at h2
        simp [pyOr, JVal.truthy, h2, objGetD]
  · intro cite inc d h
    cases cite with
    | obj cfs =>
        simp only [normalizeRecord] at h
        split at h
        · exact absurd h (by simp)
        next hAuth =>
        split at h
        · exact absurd h (by simp)
        next venue hVen =>
        split at h
        · exact absurd h (by simp)
        next hElems =>
        split at h
        · exact absurd h (by simp)
        next hConc =>
        split at h
        · exact absurd h (by simp)
        next hOa =>
        split at h
        · exact absurd h (by simp)
        next hOaUrl =>
        split at h
        · split at h
          · split at h
            · exact absurd h (by simp)
            · rw [Except.ok.injEq] at h
              exact ⟨_, venue, h.symm, hVen, rfl⟩
          · rw [Except.ok.injEq] at h
            exact ⟨_, venue, h.symm, hVen, rfl⟩
        · rw [Except.ok.injEq] at h
          exact ⟨_, venue, h.symm, hVen, rfl⟩
    | null => simp [normalizeRecord] at h
    | bool b => simp [normalizeRecord] at h
    | num n => simp [normalizeRecord] at h
    | str s => simp [normalizeRecord] at h
    | list xs => simp [normalizeRecord] at h

/-- Witness for C4 at concrete inputs: a dict-valued `source` resolves the
venue, and a successfully normalized record stores that venue. -/
theorem c4_venue_nested_path_witness :
    venueOf (.obj [(.str "primary_location",
        .obj [(.str "source", .obj [(.str "display_name", .str "Nature")])])])
      = .ok (.str "Nature")
    ∧ ∃ fs v, mkCitationData (.str "Unknown Title") .null (.num 0) .null [] [] []
          (.str "") .null [] (.str "journal-article") (.str "en") (.bool false)
          .null none = .obj fs
        ∧ venueOf (.obj []) = .ok v ∧ lookupJ fs (.str "venue") = some v := by
  constructor
  · have := c4_venue_nested_path.2.2.1
      [(.str "primary_location", .obj [(.str "source",
        .obj [(.str "display_name", .str "Nature")])])]
      [(.str "source", .obj [(.str "display_name", .str "Nature")])]
      [(.str "display_name", .str "Nature")] rfl rfl
    simpa [lookupJ] using this
  · exact c4_venue_nested_path.2.2.2.2.2 (.obj []) false _ rfl

/-! ### Claim C6: storage keys of accepted records -/

/-- The truthy string id of a raw record, when it has one: this is the case in
which the record is stored under its own identifier. -/
def recIdStr (c : JVal) : Option String :=
  match c with
  | .obj cfs =>
      match lookupJ cfs (.str "id") with
      | some (.str s) => if s ≠ "" then some s else none
      | _ => none
  | _ => none

/-- C6 counterexample input: a well-formed record with id `"W1"`. -/
def c6rec : JVal := .obj [(.str "id", .str "W1")]

/-- C6 counterexample.  Two copies of the same record are both accepted
(normalization succeeds; neither is skipped), yet the resulting dict has a
single entry: both are assigned the key `"W1"` and the second overwrites the
first, contradicting the claimed absence of key collisions between accepted
records. -/
theorem c6_counterexample :
    (processCites false [c6rec, c6rec]).length = 1
    ∧ (∃ d, normalizeRecord c6rec false = .ok d) := ⟨rfl, _, rfl⟩

/-- The value stored for a record in one loop iteration, when its id is a
truthy string and normalization succeeds. -/
def storedPair (inc : Bool) (c : JVal) : Option (JVal × JVal) :=
  match normalizeRecord c inc, recIdStr c with
  | .ok d, some s => some (JVal.str s, d)
  | _, _ => none

theorem mem_keys_storedPair {inc : Bool} :
    ∀ {cs : List JVal} {x : JVal},
      x ∈ (cs.filterMap (storedPair inc)).map Prod.fst →
      ∃ s, x = JVal.str s ∧ s ∈ cs.filterMap recIdStr := by
  intro cs x hx
  simp only [List.mem_map, List.mem_filterMap] at hx
  obtain ⟨⟨k, v⟩, ⟨c, hc, hp⟩, hk⟩ := hx
  simp only [storedPair] at hp
  split at hp
  · next d s hnorm hid =>
      refine ⟨s, ?_, ?_⟩
      · cases hp; simpa using hk.symm
      · exact List.mem_filterMap.mpr ⟨c, hc, hid⟩
  · exact absurd hp (by simp)

theorem keys_storedPair_nodup (inc : Bool) :
    ∀ cs : List JVal, (cs.filterMap recIdStr).Nodup →
      ((cs.filterMap (storedPair inc)).map Prod.fst).Nodup := by
  intro cs
  induction cs with
  | nil => intro _; simp
  | cons c rest ih =>
      intro h
      by_cases hid : ∃ s, recIdStr c = some s
      · obtain ⟨s, hs⟩ := hid
        rw [List.filterMap_cons_some hs, List.nodup_cons] at h
        cases hnorm : normalizeRecord c inc with
        | error e =>
            have : storedPair inc c = none := by simp [storedPair, hnorm, hs]
            rw [List.filterMap_cons_none this]
            exact ih h.2
        | ok d =>
            have : storedPair inc c = some (JVal.str s, d) := by
              simp [storedPair, hnorm, hs]
            rw [List.filterMap_cons_some this]
            simp only [List.map_cons, List.nodup_cons]
            refine ⟨fun hmem => ?_, ih h.2⟩
            obtain ⟨t, ht, hmem'⟩ := mem_keys_storedPair hmem
            have : s = t := by simpa [JVal.str.injEq] using ht
            exact h.1 (this ▸ hmem')
      · have hnone : recIdStr c = none := by
          cases hr : recIdStr c with
          | none => rfl
          | some s => exact absurd ⟨s, hr⟩ hid
        have hsp : storedPair inc c = none := by simp [storedPair, hnone]
        rw [List.filterMap_cons_none hnone] at h
        rw [List.filterMap_cons_none hsp]
        exact ih h

theorem foldl_storeStep_of_distinct (inc : Bool) :
    ∀ (cs : List JVal) (acc : List (JVal × JVal)),
      (∀ c ∈ cs, ∃ s, recIdStr c = some s ∧ JVal.str s ∉ acc.map Prod.fst) →
      (cs.filterMap recIdStr).Nodup →
      cs.foldl (storeStep inc) acc = acc ++ cs.filterMap (storedPair inc) := by
  intro cs
  induction cs with
  | nil => intro acc _ _; simp
  | cons c rest ih =>
      intro acc hmem hnodup
      obtain ⟨s, hs, hnot⟩ := hmem c (by simp)
      -- unpack the shape of `c` from `recIdStr c = some s`
      obtain ⟨cfs, hc⟩ : ∃ cfs, c = JVal.obj cfs := by
        cases c <;> simp [recIdStr] at hs
        exact ⟨_, rfl⟩
      subst hc
      have hid : lookupJ cfs (.str "id") = some (.str s) ∧ s ≠ "" := by
        simp only [recIdStr] at hs
        split at hs
        · next t hl =>
            split at hs
            · next hne => cases hs; exact ⟨hl, hne⟩
            · exact absurd hs (by simp)
        · exact absurd hs (by simp)
      rw [List.filterMap_cons_some hs, List.nodup_cons] at hnodup
      cases hnorm : normalizeRecord (JVal.obj cfs) inc with
      | error e =>
          have hstep : storeStep inc acc (JVal.obj cfs) = acc := by
            simp [storeStep, hnorm]
          have hsp : storedPair inc (JVal.obj cfs) = none := by
            simp [storedPair, hnorm]
          rw [List.foldl_cons, hstep, List.filterMap_cons_none hsp]
          exact ih acc (fun c' hc' => hmem c' (by simp [hc'])) hnodup.2
      | ok d =>
          have hkey : pyOr ((lookupJ cfs (.str "id")).getD .null)
              (.str ("unknown_" ++ toString acc.length)) = .str s := by
            simp [hid.1, pyOr, JVal.truthy, hid.2]
          have hstep : storeStep inc acc (JVal.obj cfs)
              = insertJ acc (.str s) d := by
            simp [storeStep, hnorm, hkey, JVal.hashable]
          have hins : insertJ acc (.str s) d = acc ++ [(.str s, d)] :=
            insertJ_append_of_not_mem
              (fun p hp => beqJ_str_right_eq_false
                (fun hps => hnot (hps ▸ List.mem_map_of_mem Prod.fst hp))) d
          have hsp : storedPair inc (JVal.obj cfs) = some (JVal.str s, d) := by
            simp [storedPair, hnorm, hs]
          rw [List.foldl_cons, hstep, hins, List.filterMap_cons_some hsp]
          have harg : ∀ c' ∈ rest, ∃ s', recIdStr c' = some s'
              ∧ JVal.str s' ∉ (acc ++ [(JVal.str s, d)]).map Prod.fst := by
            intro c' hc'
            obtain ⟨s', hs', hnot'⟩ := hmem c' (by simp [hc'])
            refine ⟨s', hs', ?_⟩
            simp only [List.map_append, List.mem_append] at hnot' ⊢
            rintro (hmem' | hmem')
            · exact hnot' hmem'
            · have hss : s' = s := by simpa using hmem'
              exact hnodup.1 (hss ▸ List.mem_filterMap.mpr ⟨c', hc', hs'⟩)
          rw [ih (acc ++ [(JVal.str s, d)]) harg hnodup.2]
          simp

/-- C6 (amended).  Each accepted record is stored under its own id when that id
is truthy (and hashable), and under the synthesized key `"unknown_<n>"` with
`n` the current number of stored entries when its id is falsy; when all records
carry distinct truthy string ids, no two accepted records are assigned the same
key (the dict holds exactly one entry per accepted record, in order, and its
keys are pairwise distinct).  With duplicate or colliding ids, however, a later
record overwrites the earlier entry (see the counterexample). -/
theorem c6_storage_keys :
    (∀ (inc : Bool) (d cfs : List (JVal × JVal)) (cdata : JVal),
        normalizeRecord (.obj cfs) inc = .ok cdata →
        ((((lookupJ cfs (.str "id")).getD .null).truthy = true →
          ((lookupJ cfs (.str "id")).getD .null).hashable = true →
            storeStep inc d (.obj cfs)
              = insertJ d ((lookupJ cfs (.str "id")).getD .null) cdata)
        ∧ (((lookupJ cfs (.str "id")).getD .null).truthy = false →
            storeStep inc d (.obj cfs)
              = insertJ d (.str ("unknown_" ++ toString d.length)) cdata)))
    ∧ (∀ (inc : Bool) (cs : List JVal),
        (∀ c ∈ cs, ∃ s, recIdStr c = some s) →
        (cs.filterMap recIdStr).Nodup →
        processCites inc cs = cs.filterMap (storedPair inc)
        ∧ ((processCites inc cs).map Prod.fst).Nodup) := by
  constructor
  · intro inc d cfs cdata hnorm
    constructor
    · intro htr hh
      simp [storeStep, hnorm, pyOr, htr, hh]
    · intro htr
      simp [storeStep, hnorm, pyOr, htr, JVal.hashable]
  · intro inc cs hmem hnodup
    have heq : processCites inc cs = cs.filterMap (storedPair inc) := by
      have := foldl_storeStep_of_distinct inc cs []
        (fun c hc => (hmem c hc).elim fun s hs => ⟨s, hs, by simp⟩) hnodup
      simpa [processCites] using this
    exact ⟨heq, heq ▸ keys_storedPair_nodup inc cs hnodup⟩

/-- Witness for C6: two records with distinct truthy ids `"W1"`, `"W2"` are
stored under distinct keys. -/
theorem c6_storage_keys_witness :
    ((processCites false
        [JVal.obj [(.str "id", .str "W1")], JVal.obj [(.str "id", .str "W2")]]).map
      Prod.fst).Nodup := by
  refine (c6_storage_keys.2 false
    [JVal.obj [(.str "id", .str "W1")], JVal.obj [(.str "id", .str "W2")]] ?_ ?_).2
  · intro c hc
    simp only [List.mem_cons, List.not_mem_nil, or_false] at hc
    rcases hc with hc | hc <;> subst hc
    · exact ⟨"W1", rfl⟩
    · exact ⟨"W2", rfl⟩
  · simp [recIdStr, lookupJ, beqJ]

/-! ### Claims C8 and C9: the citation graph -/

/-- Append-if-absent: the effect of `add_node` (on node ids) and `add_edge`
(on the edge set) of a `networkx` graph. -/
def insertNew {α : Type _} [DecidableEq α] (xs : List α) (x : α) : List α :=
  if x ∈ xs then xs else xs ++ [x]

theorem addEdgeL_eq_insertNew (es : List (String × String)) (e : String × String) :
    addEdgeL es e = insertNew es e := by
  unfold addEdgeL insertNew
  by_cases h : e ∈ es
  · rw [if_pos h, if_pos h]
  · rw [if_neg h, if_neg h]

theorem mem_insertNew {α : Type _} [DecidableEq α] {xs : List α} {x y : α} :
    y ∈ insertNew xs x ↔ y ∈ xs ∨ y = x := by
  by_cases h : x ∈ xs
  · simp only [insertNew, h, if_true]
    constructor
    · exact fun hy => Or.inl hy
    · rintro (hy | hy)
      · exact hy
      · exact hy ▸ h
  · simp [insertNew, h]

theorem nodup_insertNew {α : Type _} [DecidableEq α] {xs : List α} (h : xs.Nodup)
    (x : α) : (insertNew xs x).Nodup := by
  by_cases hm : x ∈ xs
  · simpa [insertNew, hm] using h
  · simp [insertNew, hm, List.nodup_append, h]

theorem mem_foldl_insertNew {α : Type _} [DecidableEq α] :
    ∀ (xs : List α) (init : List α) (y : α),
      y ∈ xs.foldl insertNew init ↔ y ∈ init ∨ y ∈ xs := by
  intro xs
  induction xs with
  | nil => intro init y; simp
  | cons x rest ih =>
      intro init y
      rw [List.foldl_cons, ih (insertNew init x) y, mem_insertNew]
      simp only [List.mem_cons]
      tauto

theorem nodup_foldl_insertNew {α : Type _} [DecidableEq α] :
    ∀ (xs : List α) (init : List α), init.Nodup → (xs.foldl insertNew init).Nodup := by
  intro xs
  induction xs with
  | nil => intro _ h; exact h
  | cons x rest ih => intro init h; exact ih _ (nodup_insertNew h x)

theorem toFinset_foldl_insertNew {α : Type _} [DecidableEq α] (xs init : List α) :
    (xs.foldl insertNew init).toFinset = init.toFinset ∪ xs.toFinset := by
  ext y
  simp [List.mem_toFinset, mem_foldl_insertNew]

theorem card_insert_eq_one_add_card_erase {α : Type _} [DecidableEq α]
    (a : α) (s : Finset α) : (insert a s).card = 1 + (s.erase a).card := by
  by_cases h : a ∈ s
  · rw [Finset.insert_eq_self.mpr h, ← Finset.card_erase_add_one h, Nat.add_comm]
  · rw [Finset.card_insert_of_not_mem h, Finset.erase_eq_of_not_mem h, Nat.add_comm]

theorem addNodeL_ids (l : List (String × JVal × String)) (id : String) (lab : JVal)
    (t : String) : (addNodeL l id lab t).map Prod.fst = insertNew (l.map Prod.fst) id := by
  induction l with
  | nil => simp [addNodeL, insertNew]
  | cons p rest ih =>
      obtain ⟨i, l0, t0⟩ := p
      by_cases hi : i = id
      · subst hi
        simp [addNodeL, insertNew]
      · by_cases hmem : id ∈ rest.map Prod.fst
        · simp [addNodeL, hi, Ne.symm hi, ih, insertNew, hmem]
        · simp [addNodeL, hi, Ne.symm hi, ih, insertNew, hmem]

theorem addCitedNodes_ok :
    ∀ (l : List (String × JVal)) (g g' : CGraph),
      addCitedNodes g l = .ok g' →
      g'.nodes.map Prod.fst
          = (l.map (fun kv => extract_id kv.1)).foldl insertNew (g.nodes.map Prod.fst)
        ∧ g'.edges = g.edges := by
  intro l
  induction l with
  | nil =>
      intro g g' h
      simp only [addCitedNodes] at h
      cases h
      exact ⟨rfl, rfl⟩
  | cons kv rest ih =>
      intro g g' h
      obtain ⟨pid, v⟩ := kv
      simp only [addCitedNodes] at h
      split at h
      · exact absurd h (by simp)
      · next title heq =>
          obtain ⟨h1, h2⟩ := ih ⟨addNodeL g.nodes (extract_id pid) title "cited", g.edges⟩ g' h
          refine ⟨?_, h2⟩
          rw [h1]
          simp only [List.map_cons, List.foldl_cons]
          rw [addNodeL_ids]

theorem addRootEdges_spec :
    ∀ (l : List (String × JVal)) (g : CGraph) (root : String),
      (addRootEdges g l root).1.nodes = g.nodes
      ∧ (addRootEdges g l root).2
          = l.filterMap (fun kv =>
              if extract_id kv.1 ≠ root then some (extract_id kv.1, root) else none)
      ∧ (addRootEdges g l root).1.edges
          = (l.filterMap (fun kv =>
              if extract_id kv.1 ≠ root then some (extract_id kv.1, root) else none)).foldl
              insertNew g.edges := by
  intro l
  induction l with
  | nil => intro g root; exact ⟨rfl, rfl, rfl⟩
  | cons kv rest ih =>
      intro g root
      obtain ⟨pid, v⟩ := kv
      by_cases hne : extract_id pid ≠ root
      · obtain ⟨ihn, ihe, ihg⟩ :=
          ih ⟨g.nodes, addEdgeL g.edges (extract_id pid, root)⟩ root
        refine ⟨?_, ?_, ?_⟩
        · simpa [addRootEdges, hne] using ihn
        · have hstep : (addRootEdges g ((pid, v) :: rest) root).2
              = (extract_id pid, root) ::
                (addRootEdges ⟨g.nodes, addEdgeL g.edges (extract_id pid, root)⟩
                  rest root).2 := by
            simp [addRootEdges, hne]
          rw [hstep, ihe, List.filterMap_cons]
          simp [hne]
        · have hstep : (addRootEdges g ((pid, v) :: rest) root).1.edges
              = (addRootEdges ⟨g.nodes, addEdgeL g.edges (extract_id pid, root)⟩
                  rest root).1.edges := by
            simp [addRootEdges, hne]
          rw [hstep, ihg, List.filterMap_cons]
          have hif : (if extract_id (pid, v).1 ≠ root
              then some (extract_id (pid, v).1, root) else none)
              = some (extract_id pid, root) := if_pos hne
          simp only [hif]
          rw [List.foldl_cons, ← addEdgeL_eq_insertNew]
      · have heq : extract_id pid = root := not_not.mp hne
        obtain ⟨ihn, ihe, ihg⟩ := ih g root
        refine ⟨?_, ?_, ?_⟩
        · simpa [addRootEdges, hne] using ihn
        · have hstep : (addRootEdges g ((pid, v) :: rest) root).2
              = (addRootEdges g rest root).2 := by
            simp [addRootEdges, hne]
          rw [hstep, ihe, List.filterMap_cons]
          simp [heq]
        · have hstep : (addRootEdges g ((pid, v) :: rest) root).1.edges
              = (addRootEdges g rest root).1.edges := by
            simp [addRootEdges, hne]
          rw [hstep, ihg, List.filterMap_cons]
          simp [heq]

/-- C8.  For every root identifier, citation mapping and optional title on
which `build_citation_graph` returns, the returned edge list and the graph's
edge set contain no self-loop (in particular no root → root edge, even when a
mapping key extracts to the root's own identifier), and the node count is
exactly 1 (the root) plus the number of distinct extracted citing identifiers
different from the root's. -/
theorem c8_no_self_loop_node_count :
    ∀ (rootId : String) (data : List (String × JVal)) (rootTitle : Option String)
      (g : CGraph) (es : List (String × String)),
      build_citation_graph rootId data rootTitle = .ok (g, es) →
      (∀ e ∈ es, e.1 ≠ e.2) ∧ (∀ e ∈ g.edges, e.1 ≠ e.2)
      ∧ g.nodes.length
          = 1 + ((data.map (fun kv => extract_id kv.1)).toFinset.erase
              (extract_id rootId)).card := by
  intro rootId data rootTitle g es h
  simp only [build_citation_graph] at h
  split at h
  · exact absurd h (by simp)
  · next g1 hcited =>
      rw [Except.ok.injEq] at h
      obtain ⟨hspecN, hspecE, hspecG⟩ := addRootEdges_spec data g1 (extract_id rootId)
      have hg : g = (addRootEdges g1 data (extract_id rootId)).1 :=
        (congrArg Prod.fst h).symm
      have hes : es = (addRootEdges g1 data (extract_id rootId)).2 :=
        (congrArg Prod.snd h).symm
      obtain ⟨hids, hedges⟩ := addCitedNodes_ok data _ g1 hcited
      have hmemes : ∀ e ∈ es, e.1 ≠ e.2 := by
        intro e he
        rw [hes, hspecE] at he
        obtain ⟨kv, hkv, hif⟩ := List.mem_filterMap.mp he
        split at hif
        · next hne => cases hif; exact hne
        · exact absurd hif (by simp)
      refine ⟨hmemes, ?_, ?_⟩
      · intro e he
        rw [hg, hspecG] at he
        rw [mem_foldl_insertNew, hedges] at he
        rcases he with he | he
        · simp at he
        · obtain ⟨kv, hkv, hif⟩ := List.mem_filterMap.mp he
          split at hif
          · next hne => cases hif; exact hne
          · exact absurd hif (by simp)
      · have hnodes : g.nodes = g1.nodes := by rw [hg, hspecN]
        have hnodup : (g1.nodes.map Prod.fst).Nodup := by
          rw [hids]
          exact nodup_foldl_insertNew _ _ (by simp [addNodeL])
        have hlen : g.nodes.length = (g1.nodes.map Prod.fst).length := by
          rw [hnodes, List.length_map]
        rw [hlen, ← List.toFinset_card_of_nodup hnodup, hids,
          toFinset_foldl_insertNew]
        have hroot : ∀ lab : JVal,
            (addNodeL [] (extract_id rootId) lab "root").map Prod.fst
              = [extract_id rootId] := fun lab => by simp [addNodeL]
        simp only [hroot, List.toFinset_cons, List.toFinset_nil]
        rw [Finset.insert_union, Finset.empty_union]
        exact card_insert_eq_one_add_card_erase _ _

/-- C8 witness inputs: the mapping contains a key extracting to the root's own
identifier. -/
def c8data : List (String × JVal) :=
  [("https://openalex.org/W1", .obj []), ("W2", .obj [])]

/-- The graph produced on the C8 witness inputs. -/
def c8g : CGraph :=
  ⟨[("W1", JVal.str "Paper W1", "cited"), ("W2", JVal.str "Paper W2", "cited")],
   [("W2", "W1")]⟩

/-- Witness for C8: with the root also appearing among the citing keys, there
is no self-loop and the node count is 1 + 1. -/
theorem c8_no_self_loop_node_count_witness :
    (∀ e ∈ [(("W2" : String), ("W1" : String))], e.1 ≠ e.2)
    ∧ (∀ e ∈ c8g.edges, e.1 ≠ e.2)
    ∧ c8g.nodes.length
        = 1 + ((c8data.map (fun kv => extract_id kv.1)).toFinset.erase
            (extract_id "https://openalex.org/W1")).card :=
  c8_no_self_loop_node_count "https://openalex.org/W1" c8data none c8g
    [("W2", "W1")] rfl

/-- The edge list of a successful `build_citation_graph` run (empty on error),
used to exhibit concrete outputs. -/
def builtEdges (rootId : String) (data : List (String × JVal))
    (rootTitle : Option String) : List (String × String) :=
  match build_citation_graph rootId data rootTitle with
  | .ok (_, es) => es
  | .error _ => []

/-- C9 counterexample.  Two distinct raw keys (`"W1"` and
`"https://openalex.org/W1"`) extract to the same identifier; the returned edge
list contains `("W1", "W2")` twice — one entry per raw key, not one per
distinct extracted identifier. -/
theorem c9_counterexample :
    builtEdges "W2" [("W1", .obj []), ("https://openalex.org/W1", .obj [])] none
      = [("W1", "W2"), ("W1", "W2")] := rfl

/-- C9 (amended).  The returned edge list has exactly one entry
`(extract_id k, root)` per raw key `k` whose extracted identifier differs from
the root's (so raw keys extracting to the same identifier contribute one entry
each, and collapse only to a single node and a single graph edge); the graph's
edge set is duplicate-free, contains `(c, root)` exactly for the distinct
extracted citing identifiers `c` different from the root, and every edge
points at the root. -/
theorem c9_edge_entries :
    ∀ (rootId : String) (data : List (String × JVal)) (rootTitle : Option String)
      (g : CGraph) (es : List (String × String)),
      build_citation_graph rootId data rootTitle = .ok (g, es) →
      es = data.filterMap (fun kv =>
            if extract_id kv.1 ≠ extract_id rootId
            then some (extract_id kv.1, extract_id rootId) else none)
      ∧ g.edges.Nodup
      ∧ (∀ c : String, (c, extract_id rootId) ∈ g.edges
          ↔ c ∈ data.map (fun kv => extract_id kv.1) ∧ c ≠ extract_id rootId)
      ∧ (∀ e ∈ g.edges, e.2 = extract_id rootId) := by
  intro rootId data rootTitle g es h
  simp only [build_citation_graph] at h
  split at h
  · exact absurd h (by simp)
  · next g1 hcited =>
      rw [Except.ok.injEq] at h
      obtain ⟨hspecN, hspecE, hspecG⟩ := addRootEdges_spec data g1 (extract_id rootId)
      have hg : g = (addRootEdges g1 data (extract_id rootId)).1 :=
        (congrArg Prod.fst h).symm
      have hes : es = (addRootEdges g1 data (extract_id rootId)).2 :=
        (congrArg Prod.snd h).symm
      have hedges : g1.edges = [] := (addCitedNodes_ok data _ g1 hcited).2
      have hmem : ∀ x, x ∈ g.edges ↔
          x ∈ data.filterMap (fun kv =>
            if extract_id kv.1 ≠ extract_id rootId
            then some (extract_id kv.1, extract_id rootId) else none) := by
        intro x
        rw [hg, hspecG, mem_foldl_insertNew, hedges]
        simp
      refine ⟨by rw [hes, hspecE], ?_, ?_, ?_⟩
      · rw [hg, hspecG]
        exact nodup_foldl_insertNew _ _ (by rw [hedges]; exact List.nodup_nil)
      · intro c
        rw [hmem]
        constructor
        · intro hc
          obtain ⟨kv, hkv, hif⟩ := List.mem_filterMap.mp hc
          split at hif
          · next hne =>
              rw [Option.some.injEq] at hif
              have h1 : extract_id kv.1 = c := congrArg Prod.fst hif
              exact ⟨h1 ▸ List.mem_map_of_mem _ hkv, h1 ▸ hne⟩
          · exact absurd hif (by simp)
        · rintro ⟨hc, hne⟩
          obtain ⟨kv, hkv, hx⟩ := List.mem_map.mp hc
          refine List.mem_filterMap.mpr ⟨kv, hkv, ?_⟩
          rw [hx, if_pos hne]
      · intro e he
        rw [hmem] at he
        obtain ⟨kv, hkv, hif⟩ := List.mem_filterMap.mp he
        split at hif
        · next hne => cases hif; rfl
        · exact absurd hif (by simp)

/-- C9 witness inputs: two raw keys extracting to the same identifier. -/
def c9wdata : List (String × JVal) :=
  [("W1", .obj []), ("https://openalex.org/W1", .obj [])]

/-- The graph produced on the C9 witness inputs. -/
def c9wg : CGraph :=
  ⟨[("W2", JVal.str "Paper W2", "root"), ("W1", JVal.str "Paper W1", "cited")],
   [("W1", "W2")]⟩

/-- Witness for C9: the duplicate-key mapping yields a two-entry edge list but
a single deduplicated graph edge. -/
theorem c9_edge_entries_witness :
    [(("W1" : String), ("W2" : String)), ("W1", "W2")]
        = c9wdata.filterMap (fun kv =>
            if extract_id kv.1 ≠ extract_id "W2"
            then some (extract_id kv.1, extract_id "W2") else none)
    ∧ c9wg.edges.Nodup
    ∧ (∀ c : String, (c, extract_id "W2") ∈ c9wg.edges
        ↔ c ∈ c9wdata.map (fun kv => extract_id kv.1) ∧ c ≠ extract_id "W2")
    ∧ (∀ e ∈ c9wg.edges, e.2 = extract_id "W2") :=
  c9_edge_entries "W2" c9wdata none c9wg [("W1", "W2"), ("W1", "W2")] rfl

/-! ### Claim C1: total behaviour of `get_citations` -/

theorem getCitationsRaw_ok_obj :
    ∀ (api : ApiBehavior) (mr : Nat) (q : String) (maxC : Nat) (inc : Bool)
      (t0 tnow : Int) (v : JVal),
      getCitationsRaw api mr q maxC inc t0 tnow = .ok v → ∃ fs, v = .obj fs := by
  intro api mr q maxC inc t0 tnow v h
  simp only [getCitationsRaw] at h
  split at h
  · exact absurd h (by simp)
  split at h
  · exact ⟨[], by cases h; rfl⟩
  split at h
  · exact absurd h (by simp)
  split at h
  · exact ⟨[], by cases h; rfl⟩
  split at h
  · exact absurd h (by simp)
  split at h
  · split at h
    · exact ⟨_, by cases h; rfl⟩
    · exact absurd h (by simp)
  · split at h
    · exact absurd h (by simp)
    · split at h
      · exact ⟨_, by cases h; rfl⟩
      · exact absurd h (by simp)

/-- C1.  `get_citations` always returns a dict and never propagates an
exception: whatever the API behaviour (and configuration), the result is a
dict; any exception inside the try-block yields `{}`; an unresolved paper
(falsy search outcome) yields `{}`; a falsy citation url yields `{}`; and when
the paper resolves with a truthy citation url but pagination yields no
citation records, the result is the minimal mapping `{rootId: {}}` (for a
hashable root id — an unhashable one is itself an internal `TypeError`,
covered by the `{}` case). -/
theorem c1_get_citations_shape (api : ApiBehavior) (mr : Nat) (q : String)
    (maxC : Nat) (inc : Bool) (t0 tnow : Int) :
    (∃ fs, get_citations api mr q maxC inc t0 tnow = .obj fs)
    ∧ (∀ e, getCitationsRaw api mr q maxC inc t0 tnow = .error e →
        get_citations api mr q maxC inc t0 tnow = .obj [])
    ∧ (∀ paper st, get_openalex_id api mr (0, 0) = .ok (paper, st) →
        paper.truthy = false →
        get_citations api mr q maxC inc t0 tnow = .obj [])
    ∧ (∀ paper st url, get_openalex_id api mr (0, 0) = .ok (paper, st) →
        paper.truthy = true → get_citation_url paper = .ok url →
        url.truthy = false →
        get_citations api mr q maxC inc t0 tnow = .obj [])
    ∧ (∀ paper st url st2 rid,
        get_openalex_id api mr (0, 0) = .ok (paper, st) → paper.truthy = true →
        get_citation_url paper = .ok url → url.truthy = true →
        query_citation_url api mr maxC st = ([], st2) →
        rootIdOf paper = .ok rid → rid.hashable = true →
        get_citations api mr q maxC inc t0 tnow = .obj [(rid, .obj [])]) := by
  refine ⟨?_, ?_, ?_, ?_, ?_⟩
  · cases hraw : getCitationsRaw api mr q maxC inc t0 tnow with
    | error e => exact ⟨[], by simp [get_citations, hraw]⟩
    | ok v =>
        obtain ⟨fs, hfs⟩ := getCitationsRaw_ok_obj api mr q maxC inc t0 tnow v hraw
        exact ⟨fs, by simp [get_citations, hraw, hfs]⟩
  · intro e he
    simp [get_citations, he]
  · intro paper st h1 h2
    have hraw : getCitationsRaw api mr q maxC inc t0 tnow = .ok (.obj []) := by
      unfold getCitationsRaw
      rw [h1]
      simp [h2]
    simp [get_citations, hraw]
  · intro paper st url h1 h2 h3 h4
    have hraw : getCitationsRaw api mr q maxC inc t0 tnow = .ok (.obj []) := by
      unfold getCitationsRaw
      rw [h1]
      simp [h2, h3, h4]
    simp [get_citations, hraw]
  · intro paper st url st2 rid h1 h2 h3 h4 h5 h6 h7
    have hraw : getCitationsRaw api mr q maxC inc t0 tnow
        = .ok (.obj [(rid, .obj [])]) := by
      unfold getCitationsRaw
      rw [h1]
      simp [h2, h3, h4, h5, h6, h7]
    simp [get_citations, hraw]

/-- API behaviour for the C1 witness: the search resolves one paper with a
citation url, and the citation listing is empty. -/
def c1api : ApiBehavior := fun i =>
  if i = 0 then
    .response 200 (.ok (.obj [(.str "results", .list
      [.obj [(.str "id", .str "W1"), (.str "cited_by_api_url", .str "U")]])]))
  else .response 200 (.ok (.obj [(.str "results", .list [])]))

/-- Witness for C1: a resolved paper whose pagination yields no records gives
the minimal mapping `{"W1": {}}`. -/
theorem c1_get_citations_shape_witness :
    get_citations c1api 3 "q" 100 false 0 5 = .obj [(.str "W1", .obj [])] :=
  (c1_get_citations_shape c1api 3 "q" 100 false 0 5).2.2.2.2
    (.obj [(.str "id", .str "W1"), (.str "cited_by_api_url", .str "U")]) (1, 1)
    (.str "U") (2, 2) (.str "W1") rfl rfl rfl rfl rfl rfl rfl

/-! ### Claim C5: the metadata entry -/

/-- API behaviour for the C5 counterexample: the resolved paper's id is the
string `"_metadata"` itself, and one citation record is returned. -/
def c5api : ApiBehavior := fun i =>
  if i = 0 then
    .response 200 (.ok (.obj [(.str "results", .list
      [.obj [(.str "id", .str "_metadata"), (.str "cited_by_api_url", .str "U")]])]))
  else if i = 1 then
    .response 200 (.ok (.obj [(.str "results", .list
      [.obj [(.str "id", .str "W3")]])]))
  else .response 200 (.ok (.obj [(.str "results", .list [])]))

/-- The metadata block of the C5 counterexample run. -/
def c5meta : JVal :=
  .obj [ (.str "query", .str "q"),
         (.str "total_citations", .num 1),
         (.str "collection_time", .num 7),
         (.str "requests_made", .num 2),
         (.str "main_paper", .obj
           [ (.str "title", .str ""),
             (.str "id", .str "_metadata"),
             (.str "cited_by_count", .num 0),
             (.str "publication_year", JVal.null) ]) ]

/-- C5 counterexample.  When the resolved paper's id is the string
`"_metadata"`, the result dict `{rootId: citations, '_metadata': metadata}`
collapses to the single entry `{'_metadata': metadata}`: the metadata key is
not distinguishable from identifier keys, the collected citations are lost,
and the result does not contain a root-identifier entry in addition to the
reserved one. -/
theorem c5_counterexample :
    get_citations c5api 3 "q" 100 false 0 7 = .obj [(.str "_metadata", c5meta)] := rfl

/-- C5 (amended).  On every run that reaches assembly (paper resolved with a
truthy citation url, nonempty pagination, hashable root id), *provided the
root id differs from the string `"_metadata"`*, the result holds exactly two
entries: the root id mapped to the citations dict, and the reserved
`'_metadata'` key mapped to a block recording the query string, the number of
stored citation entries (`len(citations)`, which under key collisions can be
smaller than the number of accepted records), the elapsed ticks since client
construction, the number of requests made, and the root-paper snapshot.  When
the root id *equals* `"_metadata"`, the metadata entry overwrites the root
entry (see the counterexample). -/
theorem c5_metadata_entry :
    ∀ (api : ApiBehavior) (mr : Nat) (q : String) (maxC : Nat) (inc : Bool)
      (t0 tnow : Int) (paper : JVal) (pfs : List (JVal × JVal)) (st st2 : St)
      (url rid : JVal) (cites : List JVal),
      get_openalex_id api mr (0, 0) = .ok (paper, st) →
      paper = .obj pfs →
      paper.truthy = true →
      get_citation_url paper = .ok url → url.truthy = true →
      query_citation_url api mr maxC st = (cites, st2) →
      cites ≠ [] →
      rootIdOf paper = .ok rid → rid.hashable = true →
      rid ≠ .str "_metadata" →
      get_citations api mr q maxC inc t0 tnow
        = .obj [(rid, .obj (processCites inc cites)),
                (.str "_metadata", .obj
                  [ (.str "query", .str q),
                    (.str "total_citations", .num (processCites inc cites).length),
                    (.str "collection_time", .num (tnow - t0)),
                    (.str "requests_made", .num st2.2),
                    (.str "main_paper", .obj
                      [ (.str "title", (lookupJ pfs (.str "title")).getD (.str "")),
                        (.str "id", (lookupJ pfs (.str "id")).getD (.str "")),
                        (.str "cited_by_count",
                          (lookupJ pfs (.str "cited_by_count")).getD (.num 0)),
                        (.str "publication_year",
                          (lookupJ pfs (.str "publication_year")).getD .null) ]) ])] := by
  intro api mr q maxC inc t0 tnow paper pfs st st2 url rid cites
  intro h1 hpfs h2 h3 h4 h5 hne h6 h7 hrid
  have hmeta : metadataOf q (processCites inc cites).length (tnow - t0) st2.2 paper
      = .ok (.obj
          [ (.str "query", .str q),
            (.str "total_citations", .num (processCites inc cites).length),
            (.str "collection_time", .num (tnow - t0)),
            (.str "requests_made", .num st2.2),
            (.str "main_paper", .obj
              [ (.str "title", (lookupJ pfs (.str "title")).getD (.str "")),
                (.str "id", (lookupJ pfs (.str "id")).getD (.str "")),
                (.str "cited_by_count",
                  (lookupJ pfs (.str "cited_by_count")).getD (.num 0)),
                (.str "publication_year",
                  (lookupJ pfs (.str "publication_year")).getD .null) ]) ]) := by
    subst hpfs
    rfl
  have hins : insertJ (insertJ [] rid (.obj (processCites inc cites)))
      (.str "_metadata") (.obj
        [ (.str "query", .str q),
          (.str "total_citations", .num (processCites inc cites).length),
          (.str "collection_time", .num (tnow - t0)),
          (.str "requests_made", .num st2.2),
          (.str "main_paper", .obj
            [ (.str "title", (lookupJ pfs (.str "title")).getD (.str "")),
              (.str "id", (lookupJ pfs (.str "id")).getD (.str "")),
              (.str "cited_by_count",
                (lookupJ pfs (.str "cited_by_count")).getD (.num 0)),
              (.str "publication_year",
                (lookupJ pfs (.str "publication_year")).getD .null) ]) ])
      = [(rid, .obj (processCites inc cites)),
         (.str "_metadata", .obj
           [ (.str "query", .str q),
             (.str "total_citations", .num (processCites inc cites).length),
             (.str "collection_time", .num (tnow - t0)),
             (.str "requests_made", .num st2.2),
             (.str "main_paper", .obj
               [ (.str "title", (lookupJ pfs (.str "title")).getD (.str "")),
                 (.str "id", (lookupJ pfs (.str "id")).getD (.str "")),
                 (.str "cited_by_count",
                   (lookupJ pfs (.str "cited_by_count")).getD (.num 0)),
                 (.str "publication_year",
                   (lookupJ pfs (.str "publication_year")).getD .null) ]) ])] := by
    simp [insertJ, beqJ_str_right_eq_false hrid]
  have hraw : getCitationsRaw api mr q maxC inc t0 tnow
      = .ok (.obj [(rid, .obj (processCites inc cites)),
          (.str "_metadata", .obj
            [ (.str "query", .str q),
              (.str "total_citations", .num (processCites inc cites).length),
              (.str "collection_time", .num (tnow - t0)),
              (.str "requests_made", .num st2.2),
              (.str "main_paper", .obj
                [ (.str "title", (lookupJ pfs (.str "title")).getD (.str "")),
                  (.str "id", (lookupJ pfs (.str "id")).getD (.str "")),
                  (.str "cited_by_count",
                    (lookupJ pfs (.str "cited_by_count")).getD (.num 0)),
                  (.str "publication_year",
                    (lookupJ pfs (.str "publication_year")).getD .null) ]) ])]) := by
    unfold getCitationsRaw
    rw [h1]
    simp [h2, h3, h4, h5, hne, h6, h7, hmeta, hins]
  simp [get_citations, hraw]

/-- API behaviour for the C5 witness: a normal root paper and one citation. -/
def c5wapi : ApiBehavior := fun i =>
  if i = 0 then
    .response 200 (.ok (.obj [(.str "results", .list
      [.obj [(.str "id", .str "W1"), (.str "cited_by_api_url", .str "U"),
             (.str "title", .str "T")]])]))
  else if i = 1 then
    .response 200 (.ok (.obj [(.str "results", .list
      [.obj [(.str "id", .str "W3")]])]))
  else .response 200 (.ok (.obj [(.str "results", .list [])]))

/-- Witness for C5 on a concrete full run. -/
theorem c5_metadata_entry_witness :
    get_citations c5wapi 3 "q" 100 false 0 7
      = .obj [(.str "W1", .obj (processCites false [.obj [(.str "id", .str "W3")]])),
              (.str "_metadata", .obj
                [ (.str "query", .str "q"),
                  (.str "total_citations",
                    .num (processCites false [.obj [(.str "id", .str "W3")]]).length),
                  (.str "collection_time", .num (7 - 0)),
                  (.str "requests_made", .num 2),
                  (.str "main_paper", .obj
                    [ (.str "title", (lookupJ
                        [(.str "id", .str "W1"), (.str "cited_by_api_url", .str "U"),
                         (.str "title", .str "T")] (.str "title")).getD (.str "")),
                      (.str "id", (lookupJ
                        [(.str "id", .str "W1"), (.str "cited_by_api_url", .str "U"),
                         (.str "title", .str "T")] (.str "id")).getD (.str "")),
                      (.str "cited_by_count", (lookupJ
                        [(.str "id", .str "W1"), (.str "cited_by_api_url", .str "U"),
                         (.str "title", .str "T")] (.str "cited_by_count")).getD (.num 0)),
                      (.str "publication_year", (lookupJ
                        [(.str "id", .str "W1"), (.str "cited_by_api_url", .str "U"),
                         (.str "title", .str "T")] (.str "publication_year")).getD
                          JVal.null) ]) ])] :=
  c5_metadata_entry c5wapi 3 "q" 100 false 0 7
    (.obj [(.str "id", .str "W1"), (.str "cited_by_api_url", .str "U"),
           (.str "title", .str "T")])
    [(.str "id", .str "W1"), (.str "cited_by_api_url", .str "U"),
     (.str "title", .str "T")]
    (1, 1) (2, 2) (.str "U") (.str "W1") [.obj [(.str "id", .str "W3")]]
    rfl rfl rfl rfl rfl rfl (by simp) rfl rfl
    (fun h => absurd (by injection h) (by decide))

end Info698
